import Mathlib

/-
Verification of the jetson-monitoring sampling-and-parsing pipeline
(src/gpumonitoring/gpu_module.py and src/gpumonitoring/db_prometheus.py).

Strings are modelled as lists of characters, Python dicts as
insertion-ordered association lists, the tegrastats line tokenizer as a
step function consuming whitespace tokens, and the Prometheus sink as a
pure function from messages to optionally stored observations.
-/

namespace Jetson

/-- Program strings are modelled as lists of characters. -/
abbrev Str := List Char

/-- View of a Lean string literal as a modelled string. -/
def toStr (s : String) : Str := s.toList

/-- Split at every character satisfying p, keeping empty pieces:
the semantics of Python str.split(sep) for a one-character sep
(with p testing equality with sep). -/
def splitP (p : Char → Bool) : Str → List Str
  | [] => [[]]
  | ch :: rest =>
    if p ch then [] :: splitP p rest
    else
      match splitP p rest with
      | [] => [[ch]]
      | part :: parts => (ch :: part) :: parts

/-- Python s.split(c) for a single-character separator c. -/
def splitC (c : Char) (s : Str) : List Str := splitP (fun ch => ch = c) s

/-- Python s.replace(c, "") for a single character c. -/
def removeC (c : Char) (s : Str) : Str := s.filter (fun ch => ch ≠ c)

/-- Does the second list start with the first one? -/
def startsWithS : Str → Str → Bool
  | [], _ => true
  | _ :: _, [] => false
  | p :: ps, c :: cs => p = c && startsWithS ps cs

/-- Python substring containment (pat in s) for a nonempty pattern. -/
def hasSub (pat : Str) : Str → Bool
  | [] => pat.isEmpty
  | c :: rest => startsWithS pat (c :: rest) || hasSub pat rest

/-- Value of an ASCII decimal digit character. -/
def digitVal? (ch : Char) : Option Nat :=
  if 48 ≤ ch.toNat && ch.toNat ≤ 57 then some (ch.toNat - 48) else none

def digitsValAux : Nat → Str → Option Nat
  | acc, [] => some acc
  | acc, ch :: rest =>
    match digitVal? ch with
    | none => none
    | some d => digitsValAux (acc * 10 + d) rest

/-- Value of a nonempty all-digit string. -/
def digitsVal? : Str → Option Nat
  | [] => none
  | s => digitsValAux 0 s

/-- Python int(...) on the plain decimal strings this program handles:
an optional minus sign followed by decimal digits; anything else fails
(raising ValueError in the source). -/
def pyInt? : Str → Option Int
  | [] => none
  | ch :: rest =>
    if ch = '-' then (digitsVal? rest).map (fun n => -(n : Int))
    else (digitsVal? (ch :: rest)).map (fun n => (n : Int))

/-- The ASCII character of a decimal digit. -/
def digitChar (d : Nat) : Char := Char.ofNat (48 + d)

def natToStrAux : Nat → Nat → Str
  | 0, _ => []
  | fuel + 1, n => if n = 0 then [] else natToStrAux fuel (n / 10) ++ [digitChar (n % 10)]

/-- Python str(...) of a natural number. -/
def natToStr (n : Nat) : Str := if n = 0 then ['0'] else natToStrAux n n

/-- Python str(...) of an integer. -/
def intToStr (i : Int) : Str := if i < 0 then '-' :: natToStr i.natAbs else natToStr i.natAbs

/-- Join strings with a one-character separator. -/
def joinC (c : Char) : List Str → Str
  | [] => []
  | [x] => x
  | x :: y :: rest => x ++ c :: joinC c (y :: rest)

/-- Python str.split() without argument: split on whitespace runs,
dropping empty pieces. -/
def pySplitWs (s : Str) : List Str :=
  (splitP (fun ch => ch.isWhitespace) s).filter (fun t => !t.isEmpty)

/-- A value stored in the structured sample: either a scalar string or an
ordered sequence of strings (per-core / per-cluster). -/
inductive TVal where
  | s (v : Str)
  | seq (vs : List Str)
deriving DecidableEq, Repr

/-- Does the association-list dict have the key? (Python: k in d). -/
def dictHasKey {α : Type} (d : List (Str × α)) (k : Str) : Bool :=
  d.any (fun p => p.1 = k)

/-- Python dict assignment d[k] = v: update in place if the key exists,
else append, preserving insertion order. -/
def dictSet {α : Type} (d : List (Str × α)) (k : Str) (v : α) : List (Str × α) :=
  if dictHasKey d k then d.map (fun p => if p.1 = k then (k, v) else p)
  else d ++ [(k, v)]

/-- Python dict lookup d.get(k). -/
def dictGet? {α : Type} (d : List (Str × α)) (k : Str) : Option α :=
  (d.find? (fun p => p.1 = k)).map (fun p => p.2)

/-- The StructuredSample built by the tokenizer (tegra_stats_buffer). -/
abbrev Buffer := List (Str × TVal)

/-- One buffer write performed by the tokenizer: force overwrites the key,
keep writes only when the key is absent (the CPU first-occurrence guard). -/
inductive Wr where
  | force (k : Str) (v : TVal)
  | keep (k : Str) (v : TVal)
deriving DecidableEq, Repr

def applyWr (buf : Buffer) : Wr → Buffer
  | .force k v => dictSet buf k v
  | .keep k v => if dictHasKey buf k then buf else dictSet buf k v

def applyWrites (buf : Buffer) (ws : List Wr) : Buffer := ws.foldl applyWr buf

/-- One if-block of GpuModule._parse_tegra_stats: a guard on the entity
token, whether the block consumes the following payload token, and the
buffer writes it performs (failing where the source raises). -/
structure Branch where
  cond : Str → Bool
  eats : Bool
  emit : Str → Str → Except Unit (List Wr)

/-- Run one block, recording writes instead of applying them. -/
def runW (br : Branch) (entity : Str) (st : List Wr × List Str) :
    Except Unit (List Wr × List Str) :=
  if br.cond entity then
    if br.eats then
      match st.2 with
      | [] => .error ()
      | payload :: it =>
        match br.emit entity payload with
        | .error u => .error u
        | .ok ws => .ok (st.1 ++ ws, it)
    else
      match br.emit entity entity with
      | .error u => .error u
      | .ok ws => .ok (st.1 ++ ws, st.2)
  else .ok st

/-- Run one block directly on the buffer, as the source does. -/
def runB (br : Branch) (entity : Str) (st : Buffer × List Str) :
    Except Unit (Buffer × List Str) :=
  if br.cond entity then
    if br.eats then
      match st.2 with
      | [] => .error ()
      | payload :: it =>
        match br.emit entity payload with
        | .error u => .error u
        | .ok ws => .ok (applyWrites st.1 ws, it)
    else
      match br.emit entity entity with
      | .error u => .error u
      | .ok ws => .ok (applyWrites st.1 ws, st.2)
  else .ok st

/-- gpu_module.py lines 129-132: the RAM block. -/
def brRAM : Branch where
  cond := fun e => e = toStr "RAM"
  eats := true
  emit := fun _ p => .ok [.force (toStr "RAM") (.s ((splitC '/' p).headD []))]

/-- gpu_module.py line 136-137: bracketed per-core list, percent part. -/
def cpuCores (p : Str) : List Str :=
  (splitC ',' (removeC ']' (removeC '[' p))).map (fun e => (splitC '%' e).headD [])

/-- gpu_module.py lines 134-139: the CPU block; the write is guarded by
"entity not in tegra_stats_buffer.keys()". -/
def brCPU : Branch where
  cond := fun e => e = toStr "CPU"
  eats := true
  emit := fun _ p => .ok [.keep (toStr "CPU") (.seq (cpuCores p))]

/-- gpu_module.py lines 141-146: the EMC_FREQ block. -/
def brEMC : Branch where
  cond := fun e => e = toStr "EMC_FREQ"
  eats := true
  emit := fun _ p =>
    match pyInt? ((splitC '@' p).getLastD []) with
    | none => .error ()
    | some n =>
      .ok [.force (toStr "EMC_UTIL") (.s ((splitC '%' p).headD [])),
           .force (toStr "EMC_FREQ") (.s (intToStr (n * 1000000)))]

/-- gpu_module.py line 151-152: per-cluster frequencies, MHz scaled to Hz. -/
def gr3dFreqs (p : Str) : Option (List Str) :=
  (splitC ',' (removeC ']' (removeC '[' ((splitC '@' p).getLastD [])))).mapM
    (fun g => (pyInt? g).map (fun n => intToStr (n * 1000000)))

/-- gpu_module.py lines 148-154: the GR3D_FREQ block. -/
def brGR3D : Branch where
  cond := fun e => e = toStr "GR3D_FREQ"
  eats := true
  emit := fun _ p =>
    match gr3dFreqs p with
    | none => .error ()
    | some fs =>
      .ok [.force (toStr "GPU_UTIL") (.s ((splitC '%' p).headD [])),
           .force (toStr "GPU_FREQ") (.seq fs)]

/-- gpu_module.py lines 156-160: the NVENC / NVENC1 / NVDEC / NVDEC1 block. -/
def brNV : Branch where
  cond := fun e => [toStr "NVENC", toStr "NVENC1", toStr "NVDEC", toStr "NVDEC1"].contains e
  eats := true
  emit := fun e p =>
    if p ≠ toStr "off" then
      match pyInt? ((splitC '@' p).getLastD []) with
      | none => .error ()
      | some n => .ok [.force e (.s (intToStr (n * 1000000)))]
    else .ok []

/-- gpu_module.py lines 162-164: any token containing GPU@ or gpu@. -/
def brGPUTemp : Branch where
  cond := fun e => hasSub (toStr "GPU@") e || hasSub (toStr "gpu@") e
  eats := false
  emit := fun e _ => .ok [.force (toStr "GPU_TEMP") (.s ((splitC '@' e).getD 1 []).dropLast)]

/-- gpu_module.py lines 166-168: any token containing CPU@ or cpu@. -/
def brCPUTemp : Branch where
  cond := fun e => hasSub (toStr "CPU@") e || hasSub (toStr "cpu@") e
  eats := false
  emit := fun e _ => .ok [.force (toStr "CPU_TEMP") (.s ((splitC '@' e).getD 1 []).dropLast)]

/-- The sequential if-blocks of _parse_tegra_stats, in source order. -/
def tegraBranches : List Branch :=
  [brRAM, brCPU, brEMC, brGR3D, brNV, brGPUTemp, brCPUTemp]

def runBranchesW : List Branch → Str → List Wr × List Str → Except Unit (List Wr × List Str)
  | [], _, st => .ok st
  | br :: brs, e, st =>
    match runW br e st with
    | .error u => .error u
    | .ok st2 => runBranchesW brs e st2

def runBranchesB : List Branch → Str → Buffer × List Str → Except Unit (Buffer × List Str)
  | [], _, st => .ok st
  | br :: brs, e, st =>
    match runB br e st with
    | .error u => .error u
    | .ok st2 => runBranchesB brs e st2

/-- One call of GpuModule._parse_tegra_stats on a non-exhausted iterator:
the entity token has been taken, the blocks run in order on the buffer
and may consume one payload token from the iterator. -/
def parseEntity (entity : Str) (it : List Str) (buf : Buffer) :
    Except Unit (Buffer × List Str) :=
  runBranchesB tegraBranches entity (buf, it)

/-- The write trace of one _parse_tegra_stats call, independent of the buffer. -/
def entityWrites (entity : Str) (it : List Str) : Except Unit (List Wr × List Str) :=
  runBranchesW tegraBranches entity ([], it)

/-- The parse loop of _process_gpu_stats_forever (lines 280-288), with the
iterator as the remaining token list.  The first argument is fuel; each
iteration consumes at least the entity token, so fuel equal to the token
count suffices (`parseLoop` below). -/
def parseLoopF : Nat → List Str → Buffer → Except Unit Buffer
  | _, [], buf => .ok buf
  | 0, _ :: _, buf => .ok buf
  | fuel + 1, e :: it, buf =>
    match parseEntity e it buf with
    | .error u => .error u
    | .ok (buf2, it2) => parseLoopF fuel it2 buf2

/-- Tokenize one tegrastats line already split into tokens, starting from
a given buffer (the source starts from an empty dict each tick). -/
def parseLoop (toks : List Str) (buf : Buffer) : Except Unit Buffer :=
  parseLoopF toks.length toks buf

/-- Write trace of the whole parse loop. -/
def traceLoopF : Nat → List Str → Except Unit (List Wr)
  | _, [] => .ok []
  | 0, _ :: _ => .ok []
  | fuel + 1, e :: it =>
    match entityWrites e it with
    | .error u => .error u
    | .ok (ws, it2) =>
      match traceLoopF fuel it2 with
      | .error u => .error u
      | .ok ws2 => .ok (ws ++ ws2)

/-- The per-process memory map (process name to kilobytes). -/
abbrev ProcMap := List (Str × Int)

/-- One line of GpuModule._parse_per_process_gpu_stats (lines 96-101):
split on whitespace, take position 1 as the process name and position 3 as
the memory amount with its trailing unit character stripped; a missing
position or a failing int(...) raises and fails the tick. -/
def perProcessLine (pm : ProcMap) (line : Str) : Except Unit ProcMap :=
  let info := pySplitWs line
  match info.get? 1, info.get? 3 with
  | some pname, some mem =>
    match pyInt? mem.dropLast with
    | some n => .ok (dictSet pm pname n)
    | none => .error ()
  | _, _ => .error ()

def perProcessGo : List Str → ProcMap → Except Unit ProcMap
  | [], pm => .ok pm
  | l :: ls, pm =>
    match perProcessLine pm l with
    | .error u => .error u
    | .ok pm2 => perProcessGo ls pm2

/-- The lines kept by _parse_per_process_gpu_stats: split('\n')[1:-1]. -/
def remainingLines (blob : Str) : List Str := ((splitC '\n' blob).drop 1).dropLast

/-- GpuModule._parse_per_process_gpu_stats (lines 93-103). -/
def parsePerProcess (blob : Str) : Except Unit ProcMap :=
  perProcessGo (remainingLines blob) []

/-- A Python value carried in a GpuEvent: a string from the tokenizer, an
int from the per-process parser, a float literal (only 0.0 occurs, written
as its integer value), or a list (if a sequence-valued field were passed
where a scalar is expected). -/
inductive PyVal where
  | s (v : Str)
  | i (n : Int)
  | f (n : Int)
  | lst (vs : List Str)
deriving DecidableEq, Repr

/-- The fields of a GpuEvent consumed by the sink: key, value, label and
the optional index kwarg.  timestamp/module/object/source are never read
by DataBaseProm.store, and humps.camelize leaves these one-word lowercase
keys unchanged. -/
structure GpuEvent where
  key : Str
  value : PyVal
  label : Str
  index : Option Nat
deriving DecidableEq, Repr

/-- GpuModule.store_gpu_event (lines 66-74): builds
GpuEvent(metric_key, metric_value, metric_name, **kwargs) and hands its
dict to the sink. -/
def storeGpuEvent (metricValue : PyVal) (metricName : Str) (metricKey : Str)
    (index : Option Nat) : GpuEvent :=
  ⟨metricKey, metricValue, metricName, index⟩

/-- self.metric_set, a defaultdict(set) mapping a field key to the metric
keys recorded for it, modelled as a list of (field key, metric key) pairs
with duplicate-free insertion. -/
abbrev MetricSet := List (Str × Str)

def msAdd (ms : MetricSet) (k mk : Str) : MetricSet :=
  if ms.contains (k, mk) then ms else ms ++ [(k, mk)]

/-- The value a buffer entry contributes when passed as a scalar. -/
def tvVal : TVal → PyVal
  | .s v => .s v
  | .seq vs => .lst vs

/-- Python enumerate(v) on a buffer value: a stored sequence iterates its
entries, a stored string iterates its characters. -/
def tvIter : TVal → List Str
  | .s v => v.map (fun ch => [ch])
  | .seq vs => vs

/-- Dispatcher state: events handed to the sink so far, and the metric set. -/
abbrev DSt := List GpuEvent × MetricSet

/-- The repeated two-line pattern of _produce_gpu_event: a store_gpu_event
call without index kwarg followed by metric_set[fieldKey].add(metricKey). -/
def emitScalar (st : DSt) (v : TVal) (fieldKey : Str) (metricKey : Str) : DSt :=
  (st.1 ++ [storeGpuEvent (tvVal v) fieldKey metricKey none], msAdd st.2 fieldKey metricKey)

/-- The body of the for-loop of GpuModule._produce_gpu_event
(lines 172-261) for one item (k, v) of self.tegra_stats. -/
def produceField (st : DSt) (k : Str) (v : TVal) : DSt :=
  let st := if k = toStr "GPU_UTIL" then
      emitScalar st v (toStr "GPU_UTIL") (toStr "tegrastats_gpu_util") else st
  let st := if k = toStr "GPU_FREQ" then
      (tvIter v).enum.foldl (fun st p =>
        (st.1 ++ [storeGpuEvent (.s p.2) (toStr "GPU_FREQ") (toStr "tegrastats_gpu_freq") (some p.1)],
         msAdd st.2 (toStr "GPU_FREQ") (toStr "tegrastats_gpu_freq_" ++ natToStr p.1))) st
    else st
  let st := if k = toStr "GPU_TEMP" then
      emitScalar st v (toStr "GPU_TEMP") (toStr "tegrastats_gpu_temp") else st
  let st := if k = toStr "CPU_TEMP" then
      emitScalar st v (toStr "CPU_TEMP") (toStr "tegrastats_cpu_temp") else st
  let st := if k = toStr "CPU" then
      (tvIter v).enum.foldl (fun st p =>
        if p.2 ≠ toStr "off" then
          (st.1 ++ [storeGpuEvent (.s p.2) (toStr "CPU") (toStr "tegrastats_cpu_usage") (some p.1)],
           msAdd st.2 (toStr "CPU") (toStr "tegrastats_cpu_usage_" ++ natToStr p.1))
        else st) st
    else st
  let st := if k = toStr "RAM" then
      emitScalar st v (toStr "RAM") (toStr "tegrastats_ram_usage") else st
  let st := if k = toStr "EMC_FREQ" then
      emitScalar st v (toStr "EMC_FREQ") (toStr "tegrastats_emc_freq") else st
  let st := if k = toStr "EMC_UTIL" then
      emitScalar st v (toStr "EMC_UTIL") (toStr "tegrastats_emc_util") else st
  let st := if k = toStr "NVENC" then
      emitScalar st v (toStr "NVENC") (toStr "tegrastats_nvenc_freq") else st
  let st := if k = toStr "NVENC1" then
      emitScalar st v (toStr "NVENC1") (toStr "tegrastats_nvenc1_freq") else st
  let st := if k = toStr "NVDEC" then
      emitScalar st v (toStr "NVDEC") (toStr "tegrastats_nvdec_freq") else st
  if k = toStr "NVDEC1" then
    emitScalar st v (toStr "NVDEC1") (toStr "tegrastats_nvdec1_freq") else st

/-- The body of the second for-loop of _produce_gpu_event (lines 263-265)
for one item of self.per_process_usage. -/
def produceProc (st : DSt) (pname : Str) (mem : Int) : DSt :=
  (st.1 ++ [storeGpuEvent (.i mem) pname (toStr "tegrastats_per_process_gpu_mem") none],
   msAdd st.2 pname (toStr "tegrastats_per_process_gpu_mem"))

/-- GpuModule._produce_gpu_event (lines 171-265): walk the structured
sample then the per-process map, emitting events and recording metric
keys. -/
def produceGpuEvent (buf : Buffer) (pm : ProcMap) (ms : MetricSet) : DSt :=
  let st := buf.foldl (fun st p => produceField st p.1 p.2) ([], ms)
  pm.foldl (fun st p => produceProc st p.1 p.2) st

/-- GpuModule._nullify_gpu_data (lines 76-82): for every recorded
(field key, metric key) pair, store_gpu_event(0.0, field key, metric key). -/
def nullifyEvents (ms : MetricSet) : List GpuEvent :=
  ms.map (fun p => storeGpuEvent (.f 0) p.1 p.2 none)

/-- The outcome of the fallible stages of one tick of
_process_gpu_stats_forever: collection of the tegrastats line failed, the
per-process collection failed after a line was read, or both external
reads succeeded. -/
inductive TickIn where
  | collectFail
  | procFail (line : Str)
  | full (line : Str) (blob : Str)

/-- One iteration of the while-loop of _process_gpu_stats_forever
(lines 267-310): on any stage exception the tick falls to
_nullify_gpu_data; otherwise the parsed sample is dispatched.  Returns
the new metric set and the events handed to the sink this tick. -/
def tick (ms : MetricSet) (inp : TickIn) : MetricSet × List GpuEvent :=
  match inp with
  | .collectFail => (ms, nullifyEvents ms)
  | .procFail line =>
    match parseLoop (splitC ' ' line) [] with
    | .error _ => (ms, nullifyEvents ms)
    | .ok _ => (ms, nullifyEvents ms)
  | .full line blob =>
    match parseLoop (splitC ' ' line) [] with
    | .error _ => (ms, nullifyEvents ms)
    | .ok buf =>
      match parsePerProcess blob with
      | .error _ => (ms, nullifyEvents ms)
      | .ok pm =>
        let st := produceGpuEvent buf pm ms
        (st.2, st.1)

/-- The dict of a GpuEvent as seen by DataBaseProm.store: the label key is
always present, the index key only when the kwarg was passed. -/
structure Msg where
  key : Str
  value : PyVal
  label : Option Str
  index : Option Nat
deriving DecidableEq, Repr

def eventToMsg (e : GpuEvent) : Msg := ⟨e.key, e.value, some e.label, e.index⟩

def pyLower (s : Str) : Str := s.map Char.toLower

/-- The static help-text table of DataBaseProm.store (lines 56-70). -/
def helpTextOf (name : Str) : Option Str :=
  if name = toStr "tegrastats_gpu_util" then some (toStr "GPU Utilization (%)")
  else if name = toStr "tegrastats_gpu_freq" then some (toStr "GPU Frequency (Hz)")
  else if name = toStr "tegrastats_gpu_temp" then some (toStr "GPU Temperature (C)")
  else if name = toStr "tegrastats_cpu_temp" then some (toStr "CPU Temperature (C)")
  else if name = toStr "tegrastats_cpu_usage" then some (toStr "CPU Core Utilization (%)")
  else if name = toStr "tegrastats_ram_usage" then some (toStr "RAM Usage (MB)")
  else if name = toStr "tegrastats_emc_util" then some (toStr "EMC Memory BW Utilization (%)")
  else if name = toStr "tegrastats_emc_freq" then some (toStr "EMC Frequency (Hz)")
  else if name = toStr "tegrastats_nvenc_freq" then some (toStr "NVENC Frequency (Hz)")
  else if name = toStr "tegrastats_nvenc1_freq" then some (toStr "NVENC1 Frequency (Hz)")
  else if name = toStr "tegrastats_nvdec_freq" then some (toStr "NVDEC Frequency (Hz)")
  else if name = toStr "tegrastats_nvdec1_freq" then some (toStr "NVDEC1 Frequency (Hz)")
  else if name = toStr "tegrastats_per_process_gpu_mem" then some (toStr "Per-process GPU Memory (KB)")
  else none

def allDigits : Str → Bool
  | [] => true
  | ch :: rest => (digitVal? ch).isSome && allDigits rest

def floatBody (s : Str) : Bool :=
  match splitC '.' s with
  | [a] => allDigits a && !a.isEmpty
  | [a, b] => allDigits a && allDigits b && (!a.isEmpty || !b.isEmpty)
  | _ => false

/-- Python float(...) succeeding, on the plain decimal strings this
program produces (optional sign, digits, at most one dot; the exotic
forms float() also accepts never reach the sink here). -/
def isFloatStr : Str → Bool
  | [] => false
  | ch :: rest =>
    if ch = '-' || ch = '+' then floatBody rest else floatBody (ch :: rest)

/-- Does float(msg[value]) succeed in DataBaseProm.store? -/
def pyFloatable : PyVal → Bool
  | .s v => isFloatStr v
  | .i _ => true
  | .f _ => true
  | .lst _ => false

/-- One observation stored by the sink: the gauge name, the two label
values, and the value set. -/
structure Obs where
  name : Str
  label : Str
  index : Str
  value : PyVal
deriving DecidableEq, Repr

/-- DataBaseProm.store (lines 49-88): lower-case the key; unknown names
are warned about and dropped; otherwise set the gauge child labelled with
msg.get(label, none) and msg.get(index, 0), dropping the observation with
a warning when float(msg[value]) raises.  The logged warnings are
modelled by the dropped (none) result. -/
def sinkStore (msg : Msg) : Option Obs :=
  let metricsName := pyLower msg.key
  match helpTextOf metricsName with
  | none => none
  | some _ =>
    let lab := msg.label.getD (toStr "none")
    let idx := match msg.index with
      | some i => natToStr i
      | none => toStr "0"
    if pyFloatable msg.value then some ⟨metricsName, lab, idx, msg.value⟩ else none

/-- The observations the sink stores for a list of dispatched events. -/
def sinkOut (evs : List GpuEvent) : List Obs :=
  evs.filterMap (fun e => sinkStore (eventToMsg e))

theorem applyWrites_append (buf : Buffer) (ws1 ws2 : List Wr) :
    applyWrites buf (ws1 ++ ws2) = applyWrites (applyWrites buf ws1) ws2 :=
  List.foldl_append _ _ _ _

theorem runW_shift (br : Branch) (e : Str) (ws : List Wr) (it : List Str) :
    runW br e (ws, it) =
      (runW br e ([], it)).map (fun p => (ws ++ p.1, p.2)) := by
  unfold runW
  split
  · split
    · cases it with
      | nil => rfl
      | cons payload it2 =>
        simp only
        split <;> simp [Except.map]
    · simp only
      split <;> simp [Except.map]
  · simp [Except.map]

theorem runB_eq (br : Branch) (e : Str) (buf : Buffer) (it : List Str) :
    runB br e (buf, it) =
      (runW br e ([], it)).map (fun p => (applyWrites buf p.1, p.2)) := by
  unfold runB runW
  split
  · split
    · cases it with
      | nil => rfl
      | cons payload it2 =>
        simp only
        split <;> simp [Except.map]
    · simp only
      split <;> simp [Except.map]
  · simp [Except.map, applyWrites]

theorem runW_it_le (br : Branch) (e : Str) (ws : List Wr) (it : List Str)
    (st2 : List Wr × List Str) (h : runW br e (ws, it) = .ok st2) :
    st2.2.length ≤ it.length := by
  unfold runW at h
  split at h
  · split at h
    · cases it with
      | nil => exact absurd h (by simp)
      | cons payload it2 =>
        simp only at h
        split at h
        · exact absurd h (by simp)
        · simp only [Except.ok.injEq] at h
          subst h
          simp
    · simp only at h
      split at h
      · exact absurd h (by simp)
      · simp only [Except.ok.injEq] at h
        subst h
        exact Nat.le_refl _
  · simp only [Except.ok.injEq] at h
    subst h
    exact Nat.le_refl _

theorem runBranchesW_shift (brs : List Branch) (e : Str) (ws : List Wr) (it : List Str) :
    runBranchesW brs e (ws, it) =
      (runBranchesW brs e ([], it)).map (fun p => (ws ++ p.1, p.2)) := by
  induction brs generalizing ws it with
  | nil => simp [runBranchesW, Except.map]
  | cons br brs ih =>
    simp only [runBranchesW]
    rw [runW_shift]
    cases h : runW br e ([], it) with
    | error u => simp [Except.map]
    | ok st2 =>
      obtain ⟨ws2, it2⟩ := st2
      simp only [Except.map, List.nil_append]
      rw [ih (ws ++ ws2) it2, ih ws2 it2]
      cases h2 : runBranchesW brs e ([], it2) with
      | error u => simp [Except.map]
      | ok st3 => simp [Except.map, List.append_assoc]

theorem runBranchesB_eq (brs : List Branch) (e : Str) (buf : Buffer) (it : List Str) :
    runBranchesB brs e (buf, it) =
      (runBranchesW brs e ([], it)).map (fun p => (applyWrites buf p.1, p.2)) := by
  induction brs generalizing buf it with
  | nil => simp [runBranchesB, runBranchesW, Except.map, applyWrites]
  | cons br brs ih =>
    simp only [runBranchesB, runBranchesW]
    rw [runB_eq]
    cases h : runW br e ([], it) with
    | error u => simp [Except.map]
    | ok st2 =>
      obtain ⟨ws2, it2⟩ := st2
      simp only [Except.map, List.nil_append]
      rw [ih (applyWrites buf ws2) it2, runBranchesW_shift brs e ws2 it2]
      cases h2 : runBranchesW brs e ([], it2) with
      | error u => simp [Except.map]
      | ok st3 => simp [Except.map, applyWrites_append]

theorem runBranchesW_it_le (brs : List Branch) (e : Str) (ws : List Wr) (it : List Str)
    (st2 : List Wr × List Str) (h : runBranchesW brs e (ws, it) = .ok st2) :
    st2.2.length ≤ it.length := by
  induction brs generalizing ws it with
  | nil =>
    simp only [runBranchesW, Except.ok.injEq] at h
    subst h
    exact Nat.le_refl _
  | cons br brs ih =>
    simp only [runBranchesW] at h
    cases h1 : runW br e (ws, it) with
    | error u => rw [h1] at h; exact absurd h (by simp)
    | ok stm =>
      rw [h1] at h
      obtain ⟨wsm, itm⟩ := stm
      exact Nat.le_trans (ih wsm itm h) (runW_it_le br e ws it _ h1)

theorem parseEntity_eq (e : Str) (it : List Str) (buf : Buffer) :
    parseEntity e it buf = (entityWrites e it).map (fun p => (applyWrites buf p.1, p.2)) :=
  runBranchesB_eq tegraBranches e buf it

theorem entityWrites_it_le (e : Str) (it : List Str) (st2 : List Wr × List Str)
    (h : entityWrites e it = .ok st2) : st2.2.length ≤ it.length :=
  runBranchesW_it_le tegraBranches e [] it st2 h

/-- The parse loop is the application of its buffer-independent write
trace: given enough fuel, parsing from any starting buffer applies the
same writes in the same order. -/
theorem parseLoopF_eq (fuel : Nat) :
    ∀ toks buf, toks.length ≤ fuel →
      parseLoopF fuel toks buf = (traceLoopF fuel toks).map (applyWrites buf) := by
  induction fuel with
  | zero =>
    intro toks buf h
    cases toks with
    | nil => simp [parseLoopF, traceLoopF, Except.map, applyWrites]
    | cons e it => simp at h
  | succ n ih =>
    intro toks buf h
    cases toks with
    | nil => simp [parseLoopF, traceLoopF, Except.map, applyWrites]
    | cons e it =>
      simp only [parseLoopF, traceLoopF]
      rw [parseEntity_eq]
      cases h1 : entityWrites e it with
      | error u => simp [Except.map]
      | ok stw =>
        obtain ⟨ws, it2⟩ := stw
        simp only [Except.map]
        have hlen : it2.length ≤ n := by
          have hle : it2.length ≤ it.length := entityWrites_it_le e it (ws, it2) h1
          simp only [List.length_cons] at h
          omega
        rw [ih it2 (applyWrites buf ws) hlen]
        cases h2 : traceLoopF n it2 with
        | error u => simp [Except.map]
        | ok ws2 => simp [Except.map, applyWrites_append]

/-- A buffer write stripped of its key. -/
inductive WOp where
  | forceV (v : TVal)
  | keepV (v : TVal)
deriving DecidableEq

def wrKey : Wr → Str
  | .force k _ => k
  | .keep k _ => k

def wrOp : Wr → WOp
  | .force _ v => .forceV v
  | .keep _ v => .keepV v

def orD (o : Option TVal) (v : TVal) : Option TVal :=
  match o with
  | some w => some w
  | none => some v

/-- The value a chain of writes on one key leaves, given the starting
value of that key. -/
def resolve : Option TVal → List WOp → Option TVal
  | o, [] => o
  | _, .forceV v :: l => resolve (some v) l
  | o, .keepV v :: l => resolve (orD o v) l

/-- The writes of a trace touching a given key. -/
def opsFor (k : Str) (ws : List Wr) : List WOp :=
  (ws.filter (fun w => wrKey w = k)).map wrOp

theorem dictGet?_cons {α : Type} (p : Str × α) (d : List (Str × α)) (k : Str) :
    dictGet? (p :: d) k = if p.1 = k then some p.2 else dictGet? d k := by
  by_cases hp : p.1 = k
  · simp [dictGet?, List.find?_cons, hp]
  · simp [dictGet?, List.find?_cons, hp]

theorem dictGet?_map_set {α : Type} (d : List (Str × α)) (k : Str) (v : α) :
    dictGet? (d.map (fun p => if p.1 = k then (k, v) else p)) k =
      if dictHasKey d k then some v else none := by
  induction d with
  | nil => simp [dictGet?, dictHasKey]
  | cons p d ih =>
    by_cases hp : p.1 = k
    · simp [dictGet?_cons, dictHasKey, List.any_cons, hp]
    · rw [List.map_cons, if_neg hp, dictGet?_cons, if_neg hp, ih]
      have hhk : dictHasKey (p :: d) k = dictHasKey d k := by
        simp [dictHasKey, List.any_cons, hp]
      rw [hhk]

theorem dictGet?_append_hit {α : Type} (d : List (Str × α)) (k : Str) (v : α)
    (h : ∀ q ∈ d, q.1 ≠ k) : dictGet? (d ++ [(k, v)]) k = some v := by
  induction d with
  | nil => simp [dictGet?_cons]
  | cons p d ih =>
    have hp : p.1 ≠ k := h p (by simp)
    rw [List.cons_append, dictGet?_cons, if_neg hp]
    exact ih (fun q hq => h q (by simp [hq]))

theorem dictHasKey_eq_false {α : Type} (d : List (Str × α)) (k : Str)
    (h : dictHasKey d k = false) : ∀ q ∈ d, q.1 ≠ k := by
  intro q hq
  simp only [dictHasKey, List.any_eq_false] at h
  have := h q hq
  simpa using this

theorem dictGet?_dictSet_same {α : Type} (d : List (Str × α)) (k : Str) (v : α) :
    dictGet? (dictSet d k v) k = some v := by
  unfold dictSet
  split
  · rw [dictGet?_map_set]
    simp_all
  · exact dictGet?_append_hit d k v (dictHasKey_eq_false d k (by simp_all))

theorem dictGet?_map_set_ne {α : Type} (d : List (Str × α)) (k k2 : Str) (v : α)
    (h : k2 ≠ k) :
    dictGet? (d.map (fun p => if p.1 = k then (k, v) else p)) k2 = dictGet? d k2 := by
  induction d with
  | nil => rfl
  | cons p d ih =>
    by_cases hp : p.1 = k
    · rw [List.map_cons, if_pos hp, dictGet?_cons, dictGet?_cons]
      have h1 : ¬ ((k, v) : Str × α).1 = k2 := fun hh => h hh.symm
      have h2 : ¬ p.1 = k2 := by
        intro hh
        rw [hp] at hh
        exact h hh.symm
      rw [if_neg h1, if_neg h2]
      exact ih
    · rw [List.map_cons, if_neg hp, dictGet?_cons, dictGet?_cons]
      by_cases hq : p.1 = k2
      · rw [if_pos hq, if_pos hq]
      · rw [if_neg hq, if_neg hq]
        exact ih

theorem dictGet?_append_ne {α : Type} (d : List (Str × α)) (k k2 : Str) (v : α)
    (h : k2 ≠ k) : dictGet? (d ++ [(k, v)]) k2 = dictGet? d k2 := by
  induction d with
  | nil =>
    rw [List.nil_append, dictGet?_cons, if_neg (fun hh => h (hh.symm))]
  | cons p d ih =>
    rw [List.cons_append, dictGet?_cons, dictGet?_cons]
    by_cases hq : p.1 = k2
    · rw [if_pos hq, if_pos hq]
    · rw [if_neg hq, if_neg hq]
      exact ih

theorem dictGet?_dictSet_ne {α : Type} (d : List (Str × α)) (k k2 : Str) (v : α)
    (h : k2 ≠ k) : dictGet? (dictSet d k v) k2 = dictGet? d k2 := by
  unfold dictSet
  split
  · exact dictGet?_map_set_ne d k k2 v h
  · exact dictGet?_append_ne d k k2 v h

theorem dictGet?_isSome_eq_hasKey {α : Type} (d : List (Str × α)) (k : Str) :
    (dictGet? d k).isSome = dictHasKey d k := by
  induction d with
  | nil => rfl
  | cons p d ih =>
    rw [dictGet?_cons]
    by_cases hq : p.1 = k
    · simp [dictHasKey, hq]
    · rw [if_neg hq]
      simp only [dictHasKey, List.any_cons] at ih ⊢
      simp [hq, ih]

theorem dictGet?_applyWr (buf : Buffer) (w : Wr) (k : Str) :
    dictGet? (applyWr buf w) k =
      if wrKey w = k then
        match wrOp w with
        | .forceV v => some v
        | .keepV v => orD (dictGet? buf k) v
      else dictGet? buf k := by
  cases w with
  | force k2 v =>
    by_cases hk : k2 = k
    · subst hk
      simp [applyWr, wrKey, wrOp, dictGet?_dictSet_same]
    · simp [applyWr, wrKey, wrOp, hk, dictGet?_dictSet_ne buf k2 k v (fun hh => hk hh.symm)]
  | keep k2 v =>
    simp only [applyWr]
    by_cases hk : k2 = k
    · subst hk
      simp only [wrKey, wrOp, if_pos rfl]
      cases hh : dictHasKey buf k2 with
      | true =>
        have hs : (dictGet? buf k2).isSome = true := by
          rw [dictGet?_isSome_eq_hasKey, hh]
        cases ho : dictGet? buf k2 with
        | none => rw [ho] at hs; simp at hs
        | some w => simp [ho, orD]
      | false =>
        have hn : dictGet? buf k2 = none := by
          have hs := dictGet?_isSome_eq_hasKey buf k2
          rw [hh] at hs
          cases ho : dictGet? buf k2 with
          | none => rfl
          | some w => rw [ho] at hs; simp at hs
        simp [hn, orD, dictGet?_dictSet_same]
    · simp only [wrKey, wrOp, if_neg hk]
      split
      · rfl
      · exact dictGet?_dictSet_ne buf k2 k v (fun hh => hk hh.symm)

theorem dictGet?_applyWrites (buf : Buffer) (ws : List Wr) (k : Str) :
    dictGet? (applyWrites buf ws) k = resolve (dictGet? buf k) (opsFor k ws) := by
  induction ws generalizing buf with
  | nil => rfl
  | cons w ws ih =>
    simp only [applyWrites, List.foldl_cons] at ih ⊢
    rw [ih (applyWr buf w), dictGet?_applyWr]
    cases w with
    | force k2 v =>
      by_cases hk : k2 = k
      · subst hk
        simp [opsFor, List.filter_cons, wrKey, wrOp, resolve]
      · simp [opsFor, List.filter_cons, wrKey, wrOp, hk, resolve]
    | keep k2 v =>
      by_cases hk : k2 = k
      · subst hk
        simp [opsFor, List.filter_cons, wrKey, wrOp, resolve]
      · simp [opsFor, List.filter_cons, wrKey, wrOp, hk, resolve]

theorem resolve_shape (l : List WOp) :
    ∀ o o2 : Option TVal, resolve o l = resolve o2 l ∨
      ∃ w : Option TVal,
        resolve o l = (match o with | some x => some x | none => w) ∧
        resolve o2 l = (match o2 with | some x => some x | none => w) := by
  induction l with
  | nil =>
    intro o o2
    right
    refine ⟨none, ?_, ?_⟩ <;> (cases o <;> cases o2 <;> rfl)
  | cons op l ih =>
    intro o o2
    cases op with
    | forceV v => left; simp [resolve]
    | keepV v =>
      simp only [resolve]
      rcases ih (orD o v) (orD o2 v) with h | ⟨w, h1, h2⟩
      · left; exact h
      · right
        refine ⟨some v, ?_, ?_⟩
        · rw [h1]; cases o <;> rfl
        · rw [h2]; cases o2 <;> rfl

theorem resolve_idem (o : Option TVal) (l : List WOp) :
    resolve (resolve o l) l = resolve o l := by
  rcases resolve_shape l o (resolve o l) with h | ⟨w, h1, h2⟩
  · exact h.symm
  · rw [h2, h1]
    cases o with
    | none => cases w <;> rfl
    | some x => rfl

theorem splitP_ne_nil (p : Char → Bool) (s : Str) : splitP p s ≠ [] := by
  cases s with
  | nil => simp [splitP]
  | cons ch rest =>
    unfold splitP
    split
    · simp
    · split <;> simp

theorem splitP_cons_pos (p : Char → Bool) (a : Char) (t : Str) (ha : p a = true) :
    splitP p (a :: t) = [] :: splitP p t := by
  simp [splitP, ha]

theorem splitP_cons_neg (p : Char → Bool) (a : Char) (t : Str) (ha : p a = false)
    (part : Str) (parts : List Str) (ht : splitP p t = part :: parts) :
    splitP p (a :: t) = (a :: part) :: parts := by
  simp [splitP, ha, ht]

theorem splitP_append_sep (p : Char → Bool) (c : Char) (hc : p c = true) (x y : Str) :
    splitP p (x ++ c :: y) = splitP p x ++ splitP p y := by
  induction x with
  | nil =>
    rw [List.nil_append, splitP_cons_pos p c y hc]
    rfl
  | cons a x ih =>
    by_cases ha : p a = true
    · rw [List.cons_append, splitP_cons_pos p a _ ha, splitP_cons_pos p a _ ha, ih,
        List.cons_append]
    · have ha2 : p a = false := by simpa using ha
      cases hx : splitP p x with
      | nil => exact absurd hx (splitP_ne_nil p x)
      | cons part parts =>
        rw [List.cons_append,
          splitP_cons_neg p a _ ha2 part (parts ++ splitP p y) (by rw [ih, hx]; rfl),
          splitP_cons_neg p a _ ha2 part parts hx, List.cons_append]

theorem splitP_no_sep (p : Char → Bool) (x : Str) (hx : ∀ ch ∈ x, p ch = false) :
    splitP p x = [x] := by
  induction x with
  | nil => rfl
  | cons a x ih =>
    exact splitP_cons_neg p a x (hx a (by simp)) x []
      (ih (fun ch hch => hx ch (by simp [hch])))

theorem getLastD_concat {α : Type} (l : List α) (a : α) : ∀ d, (l ++ [a]).getLastD d = a := by
  induction l with
  | nil => intro d; rfl
  | cons b l ih =>
    intro d
    rw [List.cons_append, List.getLastD_cons]
    exact ih b

theorem digitChar_toNat (d : Nat) (hd : d < 10) : (digitChar d).toNat = 48 + d := by
  interval_cases d <;> decide

theorem digitVal?_digitChar (d : Nat) (hd : d < 10) : digitVal? (digitChar d) = some d := by
  interval_cases d <;> decide

theorem natToStrAux_eq_digits :
    ∀ fuel n, n ≤ fuel → natToStrAux fuel n = ((Nat.digits 10 n).reverse).map digitChar := by
  intro fuel
  induction fuel with
  | zero =>
    intro n h
    have : n = 0 := Nat.le_zero.mp h
    subst this
    simp [natToStrAux]
  | succ f ih =>
    intro n h
    unfold natToStrAux
    split
    · rename_i hn
      subst hn
      simp
    · rename_i hn
      have hpos : 0 < n := Nat.pos_of_ne_zero hn
      rw [ih (n / 10) (by
        have := Nat.div_lt_self hpos (by norm_num : 1 < 10)
        omega)]
      rw [Nat.digits_def' (by norm_num : 1 < 10) hpos]
      simp [List.reverse_cons]

theorem natToStr_digits (n : Nat) (hn : n ≠ 0) :
    natToStr n = ((Nat.digits 10 n).reverse).map digitChar := by
  unfold natToStr
  rw [if_neg hn]
  exact natToStrAux_eq_digits n n (Nat.le_refl n)

theorem natToStr_chars (n : Nat) : ∀ ch ∈ natToStr n, 48 ≤ ch.toNat ∧ ch.toNat ≤ 57 := by
  intro ch hch
  by_cases hn : n = 0
  · subst hn
    have h0 : natToStr 0 = ['0'] := rfl
    rw [h0] at hch
    simp only [List.mem_singleton] at hch
    subst hch
    decide
  · rw [natToStr_digits n hn] at hch
    simp only [List.mem_map, List.mem_reverse] at hch
    obtain ⟨d, hd, rfl⟩ := hch
    have hlt : d < 10 := Nat.digits_lt_base (by norm_num) hd
    rw [digitChar_toNat d hlt]
    omega

theorem natToStr_ne_nil (n : Nat) : natToStr n ≠ [] := by
  by_cases hn : n = 0
  · subst hn
    simp [natToStr]
  · rw [natToStr_digits n hn]
    simp [Nat.digits_ne_nil_iff_ne_zero.mpr hn]

theorem foldl_digitsValAux (ds : List Nat) : ∀ acc, (∀ d ∈ ds, d < 10) →
    digitsValAux acc (ds.map digitChar) = some (ds.foldl (fun a d => a * 10 + d) acc) := by
  induction ds with
  | nil => intro acc _; rfl
  | cons d ds ih =>
    intro acc hd
    simp only [List.map_cons, digitsValAux]
    rw [digitVal?_digitChar d (hd d (by simp))]
    exact ih _ (fun d2 h2 => hd d2 (by simp [h2]))

theorem foldl_rev_ofDigits (ds : List Nat) : ∀ acc : Nat,
    ds.reverse.foldl (fun a d => a * 10 + d) acc = acc * 10 ^ ds.length + Nat.ofDigits 10 ds := by
  induction ds with
  | nil => intro acc; simp
  | cons d ds ih =>
    intro acc
    simp only [List.reverse_cons, List.foldl_append, List.foldl_cons, List.foldl_nil, ih,
      Nat.ofDigits_cons, List.length_cons]
    ring

theorem digitsVal?_natToStr (n : Nat) : digitsVal? (natToStr n) = some n := by
  by_cases hn : n = 0
  · subst hn
    decide
  · have hne : natToStr n ≠ [] := natToStr_ne_nil n
    have heq : digitsVal? (natToStr n) = digitsValAux 0 (natToStr n) := by
      cases hs : natToStr n with
      | nil => exact absurd hs hne
      | cons ch rest => rfl
    rw [heq, natToStr_digits n hn,
      foldl_digitsValAux ((Nat.digits 10 n).reverse) 0
        (fun d hd => Nat.digits_lt_base (by norm_num) (List.mem_reverse.mp hd)),
      foldl_rev_ofDigits (Nat.digits 10 n) 0]
    simp [Nat.ofDigits_digits]

theorem pyInt?_natToStr (n : Nat) : pyInt? (natToStr n) = some (n : Int) := by
  cases hs : natToStr n with
  | nil => exact absurd hs (natToStr_ne_nil n)
  | cons ch rest =>
    have hch : 48 ≤ ch.toNat ∧ ch.toNat ≤ 57 := natToStr_chars n ch (by rw [hs]; simp)
    have hm : ¬ ch = '-' := by
      intro hh
      rw [hh] at hch
      revert hch
      decide
    simp only [pyInt?, if_neg hm]
    rw [← hs, digitsVal?_natToStr]
    rfl

theorem natToStr_not_mem (n : Nat) (c : Char) (hc : c.toNat < 48 ∨ 57 < c.toNat) :
    c ∉ natToStr n := by
  intro hm
  have := natToStr_chars n c hm
  omega

theorem digit_not_ws (c : Char) (h : 48 ≤ c.toNat ∧ c.toNat ≤ 57) :
    c.isWhitespace = false := by
  have h1 : ¬ c = ' ' := by intro hh; rw [hh] at h; revert h; decide
  have h2 : ¬ c = '\t' := by intro hh; rw [hh] at h; revert h; decide
  have h3 : ¬ c = '\r' := by intro hh; rw [hh] at h; revert h; decide
  have h4 : ¬ c = '\n' := by intro hh; rw [hh] at h; revert h; decide
  simp [Char.isWhitespace, h1, h2, h3, h4]

theorem pySplitWs_append (x y : Str) (c : Char) (hc : c.isWhitespace = true) :
    pySplitWs (x ++ c :: y) = pySplitWs x ++ pySplitWs y := by
  unfold pySplitWs
  rw [splitP_append_sep _ c hc, List.filter_append]

theorem pySplitWs_single (x : Str) (hx : x ≠ []) (hw : ∀ ch ∈ x, ch.isWhitespace = false) :
    pySplitWs x = [x] := by
  unfold pySplitWs
  rw [splitP_no_sep _ x hw]
  simp [hx]

theorem splitC_append (c : Char) (x y : Str) :
    splitC c (x ++ c :: y) = splitC c x ++ splitC c y :=
  splitP_append_sep _ c (by simp) x y

theorem splitC_no (c : Char) (x : Str) (h : c ∉ x) : splitC c x = [x] :=
  splitP_no_sep _ x (fun ch hch => by
    simp only [decide_eq_false_iff_not]
    intro hh
    subst hh
    exact h hch)

theorem perProcessGo_err (ls : List Str) :
    ∀ pm : ProcMap, (∃ l ∈ ls, (pySplitWs l).length < 4) →
      perProcessGo ls pm = .error () := by
  induction ls with
  | nil => intro pm h; simp at h
  | cons l0 ls ih =>
    intro pm h
    simp only [perProcessGo]
    rcases h with ⟨l, hl, hlen⟩
    rcases List.mem_cons.mp hl with rfl | hl2
    · have hloc : perProcessLine pm l = .error () := by
        unfold perProcessLine
        dsimp only
        have h3 : (pySplitWs l).get? 3 = none := by
          rw [List.get?_eq_none]
          omega
        rw [h3]
        cases (pySplitWs l).get? 1 <;> rfl
      rw [hloc]
    · cases hpl : perProcessLine pm l0 with
      | error u => rfl
      | ok pm2 => exact ih pm2 ⟨l, hl2, hlen⟩

theorem nullify_mem (ms : MetricSet) (e : GpuEvent) (he : e ∈ nullifyEvents ms) :
    e.value = PyVal.f 0 ∧ (e.label, e.key) ∈ ms := by
  simp only [nullifyEvents, List.mem_map] at he
  obtain ⟨p, hp, rfl⟩ := he
  exact ⟨rfl, by simpa using hp⟩

theorem foldl_pres {β γ : Type} (P : γ → Prop) (f : γ → β → γ)
    (hf : ∀ b a, P b → P (f b a)) : ∀ (l : List β) (b : γ), P b → P (l.foldl f b) := by
  intro l
  induction l with
  | nil => intro b hb; exact hb
  | cons a l ih => intro b hb; exact ih (f b a) (hf b a hb)

theorem msAdd_mem (ms : MetricSet) (k mk : Str) (x : Str × Str) (h : x ∈ ms) :
    x ∈ msAdd ms k mk := by
  unfold msAdd
  split
  · exact h
  · exact List.mem_append_left _ h

theorem produceField_pres (st : DSt) (k : Str) (v : TVal) (x : Str × Str)
    (h : x ∈ st.2) : x ∈ (produceField st k v).2 := by
  have hscal : ∀ (s : DSt) (fk mk : Str), x ∈ s.2 → x ∈ (emitScalar s v fk mk).2 :=
    fun s fk mk hs => msAdd_mem _ _ _ _ hs
  have hfreq : ∀ s : DSt, x ∈ s.2 →
      x ∈ ((tvIter v).enum.foldl (fun st p =>
        (st.1 ++ [storeGpuEvent (.s p.2) (toStr "GPU_FREQ") (toStr "tegrastats_gpu_freq") (some p.1)],
         msAdd st.2 (toStr "GPU_FREQ") (toStr "tegrastats_gpu_freq_" ++ natToStr p.1))) s).2 := by
    intro s hs
    refine foldl_pres (fun st => x ∈ st.2) _ (fun b a hb => ?_) _ s hs
    exact msAdd_mem _ _ _ _ hb
  have hcpu : ∀ s : DSt, x ∈ s.2 →
      x ∈ ((tvIter v).enum.foldl (fun st p =>
        if p.2 ≠ toStr "off" then
          (st.1 ++ [storeGpuEvent (.s p.2) (toStr "CPU") (toStr "tegrastats_cpu_usage") (some p.1)],
           msAdd st.2 (toStr "CPU") (toStr "tegrastats_cpu_usage_" ++ natToStr p.1))
        else st) s).2 := by
    intro s hs
    refine foldl_pres (fun st => x ∈ st.2) _ (fun b a hb => ?_) _ s hs
    split
    · exact msAdd_mem _ _ _ _ hb
    · exact hb
  have hstep : ∀ (c : Prop) [Decidable c] (f : DSt → DSt) (s : DSt),
      (∀ t : DSt, x ∈ t.2 → x ∈ (f t).2) → x ∈ s.2 → x ∈ (if c then f s else s).2 := by
    intro c hc f s hf hs
    split
    · exact hf s hs
    · exact hs
  unfold produceField
  refine hstep (k = toStr "NVDEC1") (fun s => emitScalar s v (toStr "NVDEC1") (toStr "tegrastats_nvdec1_freq")) _
    (fun t ht => hscal t _ _ ht) ?_
  refine hstep (k = toStr "NVDEC") (fun s => emitScalar s v (toStr "NVDEC") (toStr "tegrastats_nvdec_freq")) _
    (fun t ht => hscal t _ _ ht) ?_
  refine hstep (k = toStr "NVENC1") (fun s => emitScalar s v (toStr "NVENC1") (toStr "tegrastats_nvenc1_freq")) _
    (fun t ht => hscal t _ _ ht) ?_
  refine hstep (k = toStr "NVENC") (fun s => emitScalar s v (toStr "NVENC") (toStr "tegrastats_nvenc_freq")) _
    (fun t ht => hscal t _ _ ht) ?_
  refine hstep (k = toStr "EMC_UTIL") (fun s => emitScalar s v (toStr "EMC_UTIL") (toStr "tegrastats_emc_util")) _
    (fun t ht => hscal t _ _ ht) ?_
  refine hstep (k = toStr "EMC_FREQ") (fun s => emitScalar s v (toStr "EMC_FREQ") (toStr "tegrastats_emc_freq")) _
    (fun t ht => hscal t _ _ ht) ?_
  refine hstep (k = toStr "RAM") (fun s => emitScalar s v (toStr "RAM") (toStr "tegrastats_ram_usage")) _
    (fun t ht => hscal t _ _ ht) ?_
  refine hstep (k = toStr "CPU") (fun s => (tvIter v).enum.foldl (fun st p =>
        if p.2 ≠ toStr "off" then
          (st.1 ++ [storeGpuEvent (.s p.2) (toStr "CPU") (toStr "tegrastats_cpu_usage") (some p.1)],
           msAdd st.2 (toStr "CPU") (toStr "tegrastats_cpu_usage_" ++ natToStr p.1))
        else st) s) _
    (fun t ht => hcpu t ht) ?_
  refine hstep (k = toStr "CPU_TEMP") (fun s => emitScalar s v (toStr "CPU_TEMP") (toStr "tegrastats_cpu_temp")) _
    (fun t ht => hscal t _ _ ht) ?_
  refine hstep (k = toStr "GPU_TEMP") (fun s => emitScalar s v (toStr "GPU_TEMP") (toStr "tegrastats_gpu_temp")) _
    (fun t ht => hscal t _ _ ht) ?_
  refine hstep (k = toStr "GPU_FREQ") (fun s => (tvIter v).enum.foldl (fun st p =>
        (st.1 ++ [storeGpuEvent (.s p.2) (toStr "GPU_FREQ") (toStr "tegrastats_gpu_freq") (some p.1)],
         msAdd st.2 (toStr "GPU_FREQ") (toStr "tegrastats_gpu_freq_" ++ natToStr p.1))) s) _
    (fun t ht => hfreq t ht) ?_
  refine hstep (k = toStr "GPU_UTIL") (fun s => emitScalar s v (toStr "GPU_UTIL") (toStr "tegrastats_gpu_util")) _
    (fun t ht => hscal t _ _ ht) ?_
  exact h

theorem produceGpuEvent_ms_mono (buf : Buffer) (pm : ProcMap) (ms : MetricSet)
    (x : Str × Str) (hx : x ∈ ms) : x ∈ (produceGpuEvent buf pm ms).2 := by
  unfold produceGpuEvent
  refine foldl_pres (fun st : DSt => x ∈ st.2) _ (fun b a hb => ?_) _ _ ?_
  · exact msAdd_mem _ _ _ _ hb
  · refine foldl_pres (fun st : DSt => x ∈ st.2) _ (fun b a hb => ?_) _ _ hx
    exact produceField_pres b a.1 a.2 x hb

/-- C8.  Tokenizing is idempotent and deterministic: the embedded
tokenizer is a pure function of the token sequence, so two runs over the
same line starting from an empty StructuredSample yield the same result
(first conjunct), and moreover re-running the tokenizer over the same
tokens on the sample produced by the first run reproduces exactly the
same key-to-value contents (second conjunct). -/
theorem c8_tokenize_idempotent (toks : List Str) (buf : Buffer)
    (h : parseLoop toks [] = .ok buf) :
    parseLoop toks [] = .ok buf ∧
    ∃ buf2, parseLoop toks buf = .ok buf2 ∧ ∀ k, dictGet? buf2 k = dictGet? buf k := by
  refine ⟨h, ?_⟩
  have he := parseLoopF_eq toks.length toks [] (Nat.le_refl _)
  have he2 := parseLoopF_eq toks.length toks buf (Nat.le_refl _)
  rw [parseLoop, he] at h
  cases ht : traceLoopF toks.length toks with
  | error u => rw [ht] at h; exact absurd h (by simp [Except.map])
  | ok ws =>
    rw [ht] at h
    simp only [Except.map, Except.ok.injEq] at h
    subst h
    refine ⟨applyWrites (applyWrites [] ws) ws, ?_, ?_⟩
    · rw [parseLoop, he2, ht]
      rfl
    · intro k
      calc dictGet? (applyWrites (applyWrites [] ws) ws) k
          = resolve (resolve (dictGet? ([] : Buffer) k) (opsFor k ws)) (opsFor k ws) := by
            rw [dictGet?_applyWrites, dictGet?_applyWrites]
        _ = resolve (dictGet? ([] : Buffer) k) (opsFor k ws) := resolve_idem _ _
        _ = dictGet? (applyWrites [] ws) k := (dictGet?_applyWrites _ _ _).symm

theorem c8_tokenize_idempotent_witness :
    parseLoop [toStr "RAM", toStr "1234/8192MB"] [] =
      .ok [(toStr "RAM", TVal.s (toStr "1234"))] ∧
    ∃ buf2, parseLoop [toStr "RAM", toStr "1234/8192MB"]
        [(toStr "RAM", TVal.s (toStr "1234"))] = .ok buf2 ∧
      ∀ k, dictGet? buf2 k = dictGet? [(toStr "RAM", TVal.s (toStr "1234"))] k :=
  c8_tokenize_idempotent [toStr "RAM", toStr "1234/8192MB"]
    [(toStr "RAM", TVal.s (toStr "1234"))] (by rfl)

/-- C2.  Per-tick all-or-nothing invariant: every tick either dispatches
exactly the events produced from the fully parsed structured sample of
this tick, or (when collection, parsing or the per-process stage fails)
dispatches exactly the zeroing events, each carrying value 0.0 and a
previously recorded (field key, metric key) pair — never a mix. -/
theorem c2_all_or_nothing (ms : MetricSet) (inp : TickIn) :
    ((tick ms inp).2 = nullifyEvents ms ∧
      ∀ e ∈ (tick ms inp).2, e.value = PyVal.f 0 ∧ (e.label, e.key) ∈ ms) ∨
    (∃ line blob buf pm, inp = TickIn.full line blob ∧
      parseLoop (splitC ' ' line) [] = .ok buf ∧ parsePerProcess blob = .ok pm ∧
      (tick ms inp).2 = (produceGpuEvent buf pm ms).1) := by
  cases inp with
  | collectFail => exact Or.inl ⟨rfl, fun e he => nullify_mem ms e he⟩
  | procFail line =>
    left
    constructor
    · simp only [tick]
      cases parseLoop (splitC ' ' line) [] <;> rfl
    · intro e he
      apply nullify_mem ms e
      simp only [tick] at he
      cases h1 : parseLoop (splitC ' ' line) [] with
      | error u => rw [h1] at he; exact he
      | ok b => rw [h1] at he; exact he
  | full line blob =>
    simp only [tick]
    cases h1 : parseLoop (splitC ' ' line) [] with
    | error u => exact Or.inl ⟨rfl, fun e he => nullify_mem ms e he⟩
    | ok buf =>
      cases h2 : parsePerProcess blob with
      | error u => exact Or.inl ⟨rfl, fun e he => nullify_mem ms e he⟩
      | ok pm => exact Or.inr ⟨line, blob, buf, pm, rfl, h1, h2, rfl⟩

/-- C9.  The MetricSet only grows across ticks: every pair recorded before
a tick (successful or failing) is still recorded after it; the dispatcher
only inserts pairs and the zeroing path never modifies the MetricSet. -/
theorem c9_metric_set_monotone (ms : MetricSet) (inp : TickIn) (x : Str × Str)
    (h : x ∈ ms) : x ∈ (tick ms inp).1 := by
  cases inp with
  | collectFail => exact h
  | procFail line =>
    simp only [tick]
    cases parseLoop (splitC ' ' line) [] <;> exact h
  | full line blob =>
    simp only [tick]
    cases parseLoop (splitC ' ' line) [] with
    | error u => exact h
    | ok buf =>
      cases parsePerProcess blob with
      | error u => exact h
      | ok pm => exact produceGpuEvent_ms_mono buf pm ms x h

theorem c9_metric_set_monotone_witness :
    (toStr "RAM", toStr "tegrastats_ram_usage") ∈
      (tick [(toStr "RAM", toStr "tegrastats_ram_usage")]
        (TickIn.full (toStr "RAM 1234/8192MB") (toStr "h\nt"))).1 :=
  c9_metric_set_monotone _ _ _ (by decide)

/-- C5.  The per-process memory parser drops the first and last lines of
the blob; a remaining line whose whitespace fields are the owner, the
process name, the pid and the memory amount followed by a unit character
maps the field at position 1 to the integer at position 3 with the
trailing unit character stripped; a remaining line with fewer than 4
whitespace-separated fields raises, and that error makes the whole tick
fall to the zeroing path. -/
theorem c5_per_process_parse :
    (∀ (hdr trail owner pname pid : Str) (mem : Nat),
      '\n' ∉ hdr → '\n' ∉ trail →
      owner ≠ [] → (∀ ch ∈ owner, ch.isWhitespace = false) →
      pname ≠ [] → (∀ ch ∈ pname, ch.isWhitespace = false) →
      pid ≠ [] → (∀ ch ∈ pid, ch.isWhitespace = false) →
      parsePerProcess (hdr ++ '\n' ::
          ((owner ++ ' ' :: (pname ++ ' ' :: (pid ++ ' ' :: (natToStr mem ++ ['K'])))) ++
            '\n' :: trail)) =
        .ok [(pname, (mem : Int))]) ∧
    (∀ blob : Str, (∃ l ∈ remainingLines blob, (pySplitWs l).length < 4) →
      parsePerProcess blob = .error ()) ∧
    (∀ (ms : MetricSet) (line blob : Str) (buf : Buffer),
      parseLoop (splitC ' ' line) [] = .ok buf →
      parsePerProcess blob = .error () →
      (tick ms (TickIn.full line blob)).2 = nullifyEvents ms) := by
  refine ⟨?_, ?_, ?_⟩
  · intro hdr trail owner pname pid mem hh ht ho1 ho2 hp1 hp2 hq1 hq2
    have hmemK : ∀ ch ∈ natToStr mem ++ ['K'], ch.isWhitespace = false := by
      intro ch hch
      rcases List.mem_append.mp hch with hd | hk
      · exact digit_not_ws ch (natToStr_chars mem ch hd)
      · simp only [List.mem_singleton] at hk
        subst hk
        decide
    have hmemK1 : natToStr mem ++ ['K'] ≠ [] := by simp
    have hline : ∀ ch ∈ owner ++ ' ' :: (pname ++ ' ' :: (pid ++ ' ' ::
        (natToStr mem ++ ['K']))), ¬ ch = '\n' := by
      intro ch hch hne
      subst hne
      have hws : ('\n').isWhitespace = true := by decide
      rcases List.mem_append.mp hch with h1 | h1
      · rw [ho2 _ h1] at hws; exact absurd hws (by simp)
      · rcases List.mem_cons.mp h1 with h2 | h2
        · exact absurd h2.symm (by decide)
        · rcases List.mem_append.mp h2 with h3 | h3
          · rw [hp2 _ h3] at hws; exact absurd hws (by simp)
          · rcases List.mem_cons.mp h3 with h4 | h4
            · exact absurd h4.symm (by decide)
            · rcases List.mem_append.mp h4 with h5 | h5
              · rw [hq2 _ h5] at hws; exact absurd hws (by simp)
              · rcases List.mem_cons.mp h5 with h6 | h6
                · exact absurd h6.symm (by decide)
                · rw [hmemK _ h6] at hws; exact absurd hws (by simp)
    have hsplit : splitC '\n' (hdr ++ '\n' ::
        ((owner ++ ' ' :: (pname ++ ' ' :: (pid ++ ' ' :: (natToStr mem ++ ['K'])))) ++
          '\n' :: trail)) =
        [hdr, owner ++ ' ' :: (pname ++ ' ' :: (pid ++ ' ' :: (natToStr mem ++ ['K']))),
         trail] := by
      rw [splitC_append, splitC_append, splitC_no _ hdr hh, splitC_no _ trail ht,
        splitC_no _ _ (fun hm => hline _ hm rfl)]
      rfl
    have hws : pySplitWs (owner ++ ' ' :: (pname ++ ' ' :: (pid ++ ' ' ::
        (natToStr mem ++ ['K'])))) = [owner, pname, pid, natToStr mem ++ ['K']] := by
      have hsp : (' ').isWhitespace = true := by decide
      rw [pySplitWs_append _ _ ' ' hsp, pySplitWs_append _ _ ' ' hsp,
        pySplitWs_append _ _ ' ' hsp, pySplitWs_single owner ho1 ho2,
        pySplitWs_single pname hp1 hp2, pySplitWs_single pid hq1 hq2,
        pySplitWs_single _ hmemK1 hmemK]
      rfl
    have hl : perProcessLine [] (owner ++ ' ' :: (pname ++ ' ' :: (pid ++ ' ' ::
        (natToStr mem ++ ['K'])))) = Except.ok [(pname, (mem : Int))] := by
      unfold perProcessLine
      rw [hws]
      show (match pyInt? (List.dropLast (natToStr mem ++ ['K'])) with
        | some n => Except.ok (dictSet ([] : ProcMap) pname n)
        | none => Except.error ()) = _
      rw [List.dropLast_concat, pyInt?_natToStr]
      rfl
    unfold parsePerProcess remainingLines
    rw [hsplit]
    show (match perProcessLine [] (owner ++ ' ' :: (pname ++ ' ' :: (pid ++ ' ' ::
        (natToStr mem ++ ['K'])))) with
      | Except.error u => Except.error u
      | Except.ok pm2 => perProcessGo [] pm2) = _
    rw [hl]
    rfl
  · intro blob h
    exact perProcessGo_err (remainingLines blob) [] h
  · intro ms line blob buf hparse hblob
    simp only [tick]
    rw [hparse, hblob]

theorem c5_per_process_parse_witness :
    parsePerProcess (toStr "hd\nuser rosie-perceptio 27278 753528K\n") =
      .ok [(toStr "rosie-perceptio", ((753528 : Nat) : Int))] ∧
    parsePerProcess (toStr "h\nuser x\nt") = .error () ∧
    (tick [] (TickIn.full (toStr "RAM 1234/8192MB") (toStr "h\nuser x\nt"))).2 =
      nullifyEvents [] := by
  refine ⟨?_, ?_, ?_⟩
  · have h := c5_per_process_parse.1 (toStr "hd") [] (toStr "user")
      (toStr "rosie-perceptio") (toStr "27278") 753528
      (by decide) (by decide) (by decide) (by decide) (by decide) (by decide)
      (by decide) (by decide)
    have e : toStr "hd\nuser rosie-perceptio 27278 753528K\n" =
        toStr "hd" ++ '\n' :: ((toStr "user" ++ ' ' :: (toStr "rosie-perceptio" ++ ' ' ::
          (toStr "27278" ++ ' ' :: (natToStr 753528 ++ ['K'])))) ++ '\n' :: []) := by
      decide
    rw [e, h]
  · exact c5_per_process_parse.2.1 (toStr "h\nuser x\nt")
      ⟨toStr "user x", by decide, by decide⟩
  · exact c5_per_process_parse.2.2 [] (toStr "RAM 1234/8192MB") (toStr "h\nuser x\nt")
      [(toStr "RAM", TVal.s (toStr "1234"))] (by rfl) (by rfl)

/-- C3 (amended).  Only the first occurrence of the CPU field key is
honored: when the CPU key is already populated the bare CPU token's
payload is consumed but ignored and the sample is unchanged; when the CPU
key is absent the payload is parsed and stored.  The guard tests the CPU
key itself — which a CPU_TEMP-style token never populates. -/
theorem c3_first_occurrence (p : Str) (it : List Str) (buf : Buffer) :
    (dictHasKey buf (toStr "CPU") = true →
      parseEntity (toStr "CPU") (p :: it) buf = .ok (buf, it)) ∧
    (dictHasKey buf (toStr "CPU") = false →
      parseEntity (toStr "CPU") (p :: it) buf =
        .ok (dictSet buf (toStr "CPU") (TVal.seq (cpuCores p)), it)) := by
  have hred : parseEntity (toStr "CPU") (p :: it) buf =
      .ok ((if dictHasKey buf (toStr "CPU") then buf
            else dictSet buf (toStr "CPU") (TVal.seq (cpuCores p))), it) := rfl
  constructor
  · intro h
    rw [hred, if_pos h]
  · intro h
    rw [hred, if_neg (by simp [h])]

theorem c3_first_occurrence_witness :
    parseEntity (toStr "CPU") [toStr "[10%@102]"] [(toStr "CPU", TVal.seq [toStr "55"])] =
      .ok ([(toStr "CPU", TVal.seq [toStr "55"])], []) ∧
    parseEntity (toStr "CPU") [toStr "[10%@102]"] [] =
      .ok ([(toStr "CPU", TVal.seq [toStr "10"])], []) := by
  constructor
  · exact (c3_first_occurrence (toStr "[10%@102]") []
      [(toStr "CPU", TVal.seq [toStr "55"])]).1 (by decide)
  · have h := (c3_first_occurrence (toStr "[10%@102]") [] []).2 (by decide)
    rw [h]
    rfl

theorem removeC_no (c : Char) (l : Str) (h : c ∉ l) : removeC c l = l := by
  unfold removeC
  rw [List.filter_eq_self]
  intro a ha
  have hne : ¬ a = c := fun hh => h (hh ▸ ha)
  simp [hne]

theorem mem_joinC (c : Char) (parts : List Str) (ch : Char) (h : ch ∈ joinC c parts) :
    ch = c ∨ ∃ p ∈ parts, ch ∈ p := by
  induction parts with
  | nil => simp [joinC] at h
  | cons x xs ih =>
    cases xs with
    | nil =>
      right
      exact ⟨x, by simp, by simpa [joinC] using h⟩
    | cons y rest =>
      rw [show joinC c (x :: y :: rest) = x ++ c :: joinC c (y :: rest) from rfl] at h
      rcases List.mem_append.mp h with h1 | h1
      · right
        exact ⟨x, by simp, h1⟩
      · rcases List.mem_cons.mp h1 with h2 | h2
        · left
          exact h2
        · rcases ih h2 with h3 | ⟨p, hp, hchp⟩
          · left
            exact h3
          · right
            exact ⟨p, List.mem_cons_of_mem x hp, hchp⟩

theorem splitC_joinC (c : Char) (parts : List Str) (hne : parts ≠ [])
    (hfree : ∀ pt ∈ parts, c ∉ pt) : splitC c (joinC c parts) = parts := by
  induction parts with
  | nil => exact absurd rfl hne
  | cons x xs ih =>
    cases xs with
    | nil => exact splitC_no c x (hfree x (by simp))
    | cons y rest =>
      rw [show joinC c (x :: y :: rest) = x ++ c :: joinC c (y :: rest) from rfl,
        splitC_append, splitC_no c x (hfree x (by simp)),
        ih (by simp) (fun pt hpt => hfree pt (List.mem_cons_of_mem x hpt))]
      rfl

theorem intToStr_ofNat (m : Nat) : intToStr (m : Int) = natToStr m := by
  unfold intToStr
  rw [if_neg (by simp), Int.natAbs_ofNat]

theorem mapM_scale (fs : List Nat) :
    (fs.map natToStr).mapM (fun g => (pyInt? g).map (fun n => intToStr (n * 1000000))) =
      some (fs.map (fun f => natToStr (f * 1000000))) := by
  induction fs with
  | nil => rfl
  | cons f fs ih =>
    simp only [List.map_cons, List.mapM_cons, pyInt?_natToStr, Option.map_some', ih]
    have hcast : ((f : Int) * 1000000) = ((f * 1000000 : Nat) : Int) := by push_cast; ring
    rw [hcast, intToStr_ofNat]
    rfl

theorem not_mem_joined (c : Char) (hc : c.toNat < 48 ∨ 57 < c.toNat) (hcc : ¬ c = ',')
    (fs : List Nat) : c ∉ joinC ',' (fs.map natToStr) := by
  intro h
  rcases mem_joinC ',' _ c h with h1 | ⟨p, hp, hcp⟩
  · exact hcc h1
  · simp only [List.mem_map] at hp
    obtain ⟨f, _, rfl⟩ := hp
    exact natToStr_not_mem f c hc hcp

theorem gr3dFreqs_mk (u : Nat) (fs : List Nat) (hfs : fs ≠ []) :
    gr3dFreqs (natToStr u ++ '%' :: '@' :: '[' ::
        (joinC ',' (fs.map natToStr) ++ [']'])) =
      some (fs.map (fun f => natToStr (f * 1000000))) := by
  unfold gr3dFreqs
  have hfreeAt : '@' ∉ '[' :: (joinC ',' (fs.map natToStr) ++ [']']) := by
    intro h
    rcases List.mem_cons.mp h with h1 | h1
    · exact absurd h1 (by decide)
    · rcases List.mem_append.mp h1 with h2 | h2
      · exact not_mem_joined '@' (by decide) (by decide) fs h2
      · exact absurd h2 (by decide)
  have hlast : (splitC '@' (natToStr u ++ '%' :: '@' :: '[' ::
      (joinC ',' (fs.map natToStr) ++ [']']))).getLastD [] =
      '[' :: (joinC ',' (fs.map natToStr) ++ [']']) := by
    rw [show natToStr u ++ '%' :: '@' :: '[' :: (joinC ',' (fs.map natToStr) ++ [']']) =
        (natToStr u ++ ['%']) ++ '@' :: ('[' :: (joinC ',' (fs.map natToStr) ++ [']']))
      from by rw [List.append_cons], splitC_append,
      splitC_no '@' _ hfreeAt, getLastD_concat]
  rw [hlast]
  have h1 : removeC '[' ('[' :: (joinC ',' (fs.map natToStr) ++ [']'])) =
      joinC ',' (fs.map natToStr) ++ [']'] := by
    have hstep : removeC '[' ('[' :: (joinC ',' (fs.map natToStr) ++ [']'])) =
        removeC '[' (joinC ',' (fs.map natToStr) ++ [']']) := by
      simp [removeC]
    rw [hstep]
    apply removeC_no
    intro h
    rcases List.mem_append.mp h with h2 | h2
    · exact not_mem_joined '[' (by decide) (by decide) fs h2
    · exact absurd h2 (by decide)
  have h2 : removeC ']' (joinC ',' (fs.map natToStr) ++ [']']) =
      joinC ',' (fs.map natToStr) := by
    unfold removeC
    rw [List.filter_append]
    have ha : List.filter (fun ch => ch ≠ ']') [']'] = [] := by decide
    have hb : List.filter (fun ch => ch ≠ ']') (joinC ',' (fs.map natToStr)) =
        joinC ',' (fs.map natToStr) := by
      have := removeC_no ']' (joinC ',' (fs.map natToStr))
        (not_mem_joined ']' (by decide) (by decide) fs)
      simpa [removeC] using this
    rw [ha, hb, List.append_nil]
  rw [h1, h2, splitC_joinC ',' (fs.map natToStr) (by simpa using hfs)
    (fun pt hpt => by
      simp only [List.mem_map] at hpt
      obtain ⟨f, _, rfl⟩ := hpt
      exact natToStr_not_mem f ',' (by decide))]
  exact mapM_scale fs

theorem parseEntity_gr3d (tok : Str) (it : List Str) (buf : Buffer) (fs : List Str)
    (hf : gr3dFreqs tok = some fs) :
    parseEntity (toStr "GR3D_FREQ") (tok :: it) buf =
      .ok (dictSet (dictSet buf (toStr "GPU_UTIL") (TVal.s ((splitC '%' tok).headD [])))
        (toStr "GPU_FREQ") (TVal.seq fs), it) := by
  have hemit : brGR3D.emit (toStr "GR3D_FREQ") tok = .ok
      [Wr.force (toStr "GPU_UTIL") (TVal.s ((splitC '%' tok).headD [])),
       Wr.force (toStr "GPU_FREQ") (TVal.seq fs)] := by
    show (match gr3dFreqs tok with
      | none => (Except.error () : Except Unit (List Wr))
      | some fs2 => Except.ok [Wr.force (toStr "GPU_UTIL") (TVal.s ((splitC '%' tok).headD [])),
          Wr.force (toStr "GPU_FREQ") (TVal.seq fs2)]) = _
    rw [hf]
  have h2 : runB brGR3D (toStr "GR3D_FREQ") (buf, tok :: it) =
      .ok (applyWrites buf [Wr.force (toStr "GPU_UTIL") (TVal.s ((splitC '%' tok).headD [])),
        Wr.force (toStr "GPU_FREQ") (TVal.seq fs)], it) := by
    show (match brGR3D.emit (toStr "GR3D_FREQ") tok with
      | Except.error u => (Except.error u : Except Unit (Buffer × List Str))
      | Except.ok ws => Except.ok (applyWrites buf ws, it)) = _
    rw [hemit]
  have h3 : parseEntity (toStr "GR3D_FREQ") (tok :: it) buf =
      (match runB brGR3D (toStr "GR3D_FREQ") (buf, tok :: it) with
       | Except.error u => Except.error u
       | Except.ok st2 => runBranchesB [brNV, brGPUTemp, brCPUTemp] (toStr "GR3D_FREQ") st2) :=
    rfl
  rw [h3, h2]
  rfl

/-- C6.  A GR3D_FREQ token of the form NN%@[f1,f2,...] stores the
percentage before the percent sign as GPU_UTIL and the ordered sequence
of bracketed comma-separated frequencies, each multiplied by 1000000, as
GPU_FREQ. -/
theorem c6_gr3d_token (u : Nat) (fs : List Nat) (it : List Str) (buf : Buffer)
    (hfs : fs ≠ []) :
    parseEntity (toStr "GR3D_FREQ")
      ((natToStr u ++ '%' :: '@' :: '[' :: (joinC ',' (fs.map natToStr) ++ [']'])) :: it)
      buf =
    .ok (dictSet (dictSet buf (toStr "GPU_UTIL") (TVal.s (natToStr u)))
      (toStr "GPU_FREQ") (TVal.seq (fs.map (fun f => natToStr (f * 1000000)))), it) := by
  have hhead : (splitC '%' (natToStr u ++ '%' :: '@' :: '[' ::
      (joinC ',' (fs.map natToStr) ++ [']']))).headD [] = natToStr u := by
    rw [splitC_append, splitC_no '%' (natToStr u) (natToStr_not_mem u '%' (by decide))]
    rfl
  rw [parseEntity_gr3d _ it buf _ (gr3dFreqs_mk u fs hfs), hhead]

theorem c6_gr3d_token_witness :
    parseEntity (toStr "GR3D_FREQ") [toStr "45%@[204,204]"] [] =
      .ok ([(toStr "GPU_UTIL", TVal.s (toStr "45")),
            (toStr "GPU_FREQ", TVal.seq [toStr "204000000", toStr "204000000"])], []) := by
  have e : toStr "45%@[204,204]" =
      natToStr 45 ++ '%' :: '@' :: '[' ::
        (joinC ',' (([204, 204] : List Nat).map natToStr) ++ [']']) := by decide
  rw [e, c6_gr3d_token 45 [204, 204] [] [] (by decide)]
  rfl

/-- C4.  Dispatch failures are field-local: an event whose metric name is
outside the known vocabulary or whose value is not convertible to a
floating-point number is dropped by the sink (with a logged warning,
modelled by the dropped observation) without affecting the observations
stored for the other events of the tick, and a tick whose collection and
parsing succeeded always dispatches the full produced event list —
dispatch failures never divert the tick to the zeroing path. -/
theorem c4_dispatch_field_local :
    (∀ (evs1 evs2 : List GpuEvent) (ev : GpuEvent),
      (helpTextOf (pyLower ev.key) = none ∨ pyFloatable ev.value = false) →
      sinkOut (evs1 ++ ev :: evs2) = sinkOut (evs1 ++ evs2)) ∧
    (∀ (ms : MetricSet) (line blob : Str) (buf : Buffer) (pm : ProcMap),
      parseLoop (splitC ' ' line) [] = .ok buf → parsePerProcess blob = .ok pm →
      (tick ms (TickIn.full line blob)).2 = (produceGpuEvent buf pm ms).1) := by
  constructor
  · intro evs1 evs2 ev h
    have hnone : sinkStore (eventToMsg ev) = none := by
      have hk : pyLower (eventToMsg ev).key = pyLower ev.key := rfl
      have hv : (eventToMsg ev).value = ev.value := rfl
      unfold sinkStore
      dsimp only
      rw [hk]
      rcases h with h | h
      · rw [h]
      · cases hh : helpTextOf (pyLower ev.key) with
        | none => rfl
        | some txt =>
          rw [hv, if_neg (by simp [h])]
    unfold sinkOut
    rw [List.filterMap_append, List.filterMap_append, List.filterMap_cons, hnone]
  · intro ms line blob buf pm h1 h2
    simp only [tick]
    rw [h1, h2]

theorem c4_dispatch_field_local_witness :
    sinkOut ([storeGpuEvent (PyVal.s (toStr "45")) (toStr "GPU_UTIL")
        (toStr "tegrastats_gpu_util") none] ++
        storeGpuEvent (PyVal.s (toStr "oops")) (toStr "GPU_TEMP")
          (toStr "tegrastats_gpu_temp") none ::
        [storeGpuEvent (PyVal.s (toStr "40")) (toStr "CPU_TEMP")
          (toStr "tegrastats_cpu_temp") none]) =
      sinkOut ([storeGpuEvent (PyVal.s (toStr "45")) (toStr "GPU_UTIL")
        (toStr "tegrastats_gpu_util") none] ++
        [storeGpuEvent (PyVal.s (toStr "40")) (toStr "CPU_TEMP")
          (toStr "tegrastats_cpu_temp") none]) ∧
    (tick [] (TickIn.full (toStr "RAM 1234/8192MB") (toStr "h\nt"))).2 =
      (produceGpuEvent [(toStr "RAM", TVal.s (toStr "1234"))] [] []).1 :=
  ⟨c4_dispatch_field_local.1 _ _ _ (Or.inr (by decide)),
   c4_dispatch_field_local.2 [] _ _ _ _ (by rfl) (by rfl)⟩

/-- C10.  Every observation the sink stores carries both label dimensions:
the label dimension is the message label or the string none when absent,
the index dimension is the message index or the string 0 when absent; in
particular a non-indexed series such as tegrastats_gpu_util has the same
identity (name, label = field key, index = 0) on the dispatch path and on
the zeroing path. -/
theorem c10_sink_label_index :
    (∀ (msg : Msg) (obs : Obs), sinkStore msg = some obs →
      obs.label = msg.label.getD (toStr "none") ∧
      obs.index = (match msg.index with | some i => natToStr i | none => toStr "0")) ∧
    (∀ v : Str, isFloatStr v = true →
      sinkOut [storeGpuEvent (PyVal.s v) (toStr "GPU_UTIL") (toStr "tegrastats_gpu_util") none,
               storeGpuEvent (PyVal.f 0) (toStr "GPU_UTIL") (toStr "tegrastats_gpu_util") none] =
        [⟨toStr "tegrastats_gpu_util", toStr "GPU_UTIL", toStr "0", PyVal.s v⟩,
         ⟨toStr "tegrastats_gpu_util", toStr "GPU_UTIL", toStr "0", PyVal.f 0⟩]) := by
  constructor
  · intro msg obs h
    unfold sinkStore at h
    dsimp only at h
    cases hh : helpTextOf (pyLower msg.key) with
    | none => rw [hh] at h; exact absurd h (by simp)
    | some txt =>
      rw [hh] at h
      dsimp only at h
      split at h
      · simp only [Option.some.injEq] at h
        subst h
        exact ⟨rfl, rfl⟩
      · exact absurd h (by simp)
  · intro v hv
    have hb : pyFloatable (PyVal.s v) = true := hv
    have e0 : sinkStore (eventToMsg (storeGpuEvent (PyVal.s v) (toStr "GPU_UTIL")
        (toStr "tegrastats_gpu_util") none)) =
        (if pyFloatable (PyVal.s v) = true
         then some ⟨toStr "tegrastats_gpu_util", toStr "GPU_UTIL", toStr "0", PyVal.s v⟩
         else none) := rfl
    have e1 : sinkStore (eventToMsg (storeGpuEvent (PyVal.s v) (toStr "GPU_UTIL")
        (toStr "tegrastats_gpu_util") none)) =
        some ⟨toStr "tegrastats_gpu_util", toStr "GPU_UTIL", toStr "0", PyVal.s v⟩ := by
      rw [e0, if_pos hb]
    have e2 : sinkStore (eventToMsg (storeGpuEvent (PyVal.f 0) (toStr "GPU_UTIL")
        (toStr "tegrastats_gpu_util") none)) =
        some ⟨toStr "tegrastats_gpu_util", toStr "GPU_UTIL", toStr "0", PyVal.f 0⟩ := rfl
    simp [sinkOut, List.filterMap_cons, e1, e2]

theorem c10_sink_label_index_witness :
    ((Obs.mk (toStr "tegrastats_gpu_util") (toStr "GPU_UTIL") (toStr "0")
        (PyVal.s (toStr "45"))).label = (some (toStr "GPU_UTIL")).getD (toStr "none") ∧
      (Obs.mk (toStr "tegrastats_gpu_util") (toStr "GPU_UTIL") (toStr "0")
        (PyVal.s (toStr "45"))).index =
        (match (none : Option Nat) with | some i => natToStr i | none => toStr "0")) ∧
    sinkOut [storeGpuEvent (PyVal.s (toStr "45")) (toStr "GPU_UTIL")
        (toStr "tegrastats_gpu_util") none,
      storeGpuEvent (PyVal.f 0) (toStr "GPU_UTIL") (toStr "tegrastats_gpu_util") none] =
      [⟨toStr "tegrastats_gpu_util", toStr "GPU_UTIL", toStr "0", PyVal.s (toStr "45")⟩,
       ⟨toStr "tegrastats_gpu_util", toStr "GPU_UTIL", toStr "0", PyVal.f 0⟩] :=
  ⟨c10_sink_label_index.1
      ⟨toStr "tegrastats_gpu_util", PyVal.s (toStr "45"), some (toStr "GPU_UTIL"), none⟩
      ⟨toStr "tegrastats_gpu_util", toStr "GPU_UTIL", toStr "0", PyVal.s (toStr "45")⟩
      (by rfl),
   c10_sink_label_index.2 (toStr "45") (by decide)⟩

/-- C1.  The zeroing contract is broken by the code for indexed metrics: a
successful tick establishing GPU_FREQ (per-cluster) and CPU (per-core)
identities stores sink observations named tegrastats_gpu_freq with index
labels 0 and 1 and tegrastats_cpu_usage with index labels 0 and 2, but it
records the metric keys tegrastats_gpu_freq_0, tegrastats_gpu_freq_1,
tegrastats_cpu_usage_0, tegrastats_cpu_usage_2 in the MetricSet; the
subsequent failing tick replays those suffixed names, which the sink
rejects as unrecognized, so the only zero observation actually stored is
tegrastats_gpu_util — the previously recorded indexed (name, label-set)
identities are never re-emitted with value 0.0. -/
theorem c1_zeroing_gap :
    (tick [] (TickIn.full (toStr "GR3D_FREQ 45%@[204,204] CPU [10%@102,off,30%@204]")
        (toStr "h\nt"))).1 =
      [(toStr "GPU_UTIL", toStr "tegrastats_gpu_util"),
       (toStr "GPU_FREQ", toStr "tegrastats_gpu_freq_0"),
       (toStr "GPU_FREQ", toStr "tegrastats_gpu_freq_1"),
       (toStr "CPU", toStr "tegrastats_cpu_usage_0"),
       (toStr "CPU", toStr "tegrastats_cpu_usage_2")] ∧
    (sinkOut (tick [] (TickIn.full (toStr "GR3D_FREQ 45%@[204,204] CPU [10%@102,off,30%@204]")
        (toStr "h\nt"))).2).map (fun o => (o.name, o.index)) =
      [(toStr "tegrastats_gpu_util", toStr "0"),
       (toStr "tegrastats_gpu_freq", toStr "0"),
       (toStr "tegrastats_gpu_freq", toStr "1"),
       (toStr "tegrastats_cpu_usage", toStr "0"),
       (toStr "tegrastats_cpu_usage", toStr "2")] ∧
    sinkOut (tick
      [(toStr "GPU_UTIL", toStr "tegrastats_gpu_util"),
       (toStr "GPU_FREQ", toStr "tegrastats_gpu_freq_0"),
       (toStr "GPU_FREQ", toStr "tegrastats_gpu_freq_1"),
       (toStr "CPU", toStr "tegrastats_cpu_usage_0"),
       (toStr "CPU", toStr "tegrastats_cpu_usage_2")] TickIn.collectFail).2 =
      [⟨toStr "tegrastats_gpu_util", toStr "GPU_UTIL", toStr "0", PyVal.f 0⟩] :=
  ⟨by decide, by decide, by decide⟩

/-- C3 counterexample.  A CPU_TEMP-style token (CPU@36C) does not populate
the CPU key, so a subsequent bare CPU token is NOT ignored: its payload is
parsed and stored under CPU, refuting the claim that a bare CPU token
following a CPU_TEMP-style token leaves the sample unchanged. -/
theorem c3_counterexample :
    parseLoop [toStr "CPU@36C", toStr "CPU", toStr "[10%@102]"] [] =
      .ok [(toStr "CPU_TEMP", TVal.s (toStr "36")), (toStr "CPU", TVal.seq [toStr "10"])] ∧
    dictGet? [(toStr "CPU_TEMP", TVal.s (toStr "36")), (toStr "CPU", TVal.seq [toStr "10"])]
      (toStr "CPU") = some (TVal.seq [toStr "10"]) :=
  ⟨by rfl, by decide⟩

/-- C7.  The CPU payload [10%@102,off,30%@204] tokenizes to the per-core
sequence 10, off, 30, and the dispatcher emits tegrastats_cpu_usage
observations only for indices 0 and 2, skipping the off core. -/
theorem c7_cpu_off_skip :
    parseEntity (toStr "CPU") [toStr "[10%@102,off,30%@204]"] [] =
      .ok ([(toStr "CPU", TVal.seq [toStr "10", toStr "off", toStr "30"])], []) ∧
    (produceField ([], []) (toStr "CPU")
        (TVal.seq [toStr "10", toStr "off", toStr "30"])).1.map
        (fun e => (e.key, e.index, e.value)) =
      [(toStr "tegrastats_cpu_usage", some 0, PyVal.s (toStr "10")),
       (toStr "tegrastats_cpu_usage", some 2, PyVal.s (toStr "30"))] :=
  ⟨by rfl, by decide⟩

end Jetson
